import Mathlib

/-!
# Verification of the rp2040 uartbridge firmware core (`src/demo/rp2040/src/main.rs`)

Shallow embedding of the firmware's core logic:

* `runTick` / `runTicks` embed the `uart_recver` task's inner drain loop and
  its outer ticker loop: a `u16` sequence counter (modelled as `Nat` with
  explicit `% 65536`), a fixed 128-byte read buffer, publish-and-forget
  semantics (`let _ = sender.publish(..)`).
* `runTickEv` is the same inner loop instrumented with guard
  acquire/release and read events, mirroring the scope of the
  `serial.lock().await` guard (dropped at the end of each inner-loop
  iteration, after the publish).
* `serverLoopRun` embeds `main`'s `loop { let _ = server.run().await; }`.
* `renderSerial` embeds the nibble-to-hex serial-string formatting in `main`,
  including the `b' '`-filled initial buffer and the `_ => b'X'` fallback arm.
* `get_unique_id` / `bootstrapIdentity` embed the flash unique-id read and
  the `.unwrap()` at bootstrap.
* `logging_task_msgs` embeds the 3-second heartbeat task.
-/

namespace UartBridge

/-! ## Serial ingest task (`uart_recver`)

The environment of one inner-loop iteration: either `read_ready()` does not
return `Ok(true)`, or the ready check passes but `read` fails, or `read`
succeeds with the peripheral offering `avail` bytes (the code copies at most
128 of them into `buf`), and the subsequent `sender.publish` either succeeds
or fails (`pubOk`). -/
inductive PollInput
  | notReady
  | readErr
  | readOk (avail : List Nat) (pubOk : Bool)
  deriving DecidableEq, Repr

/-- One frame as handed to `sender.publish::<UartRecvTopic>`: the sequence tag
`VarSeq::Seq2(seq_no)`, the payload `&buf[..used]`, and whether the publish
succeeded (`delivered`; the code discards this result). -/
structure Frame where
  seq : Nat
  data : List Nat
  delivered : Bool
  deriving DecidableEq, Repr

/-- The inner `loop { ... }` of `uart_recver` for one tick: starting from
sequence counter `seq`, consume poll inputs until one of the
`continue 'outer` paths is taken (not ready, read error, or zero-length
read).  Returns the final counter and the frames passed to `publish`.
`wrapping_add(1)` on `u16` is `(seq + 1) % 65536`; the read buffer is
`[0u8; 128]`, so a read delivers `min avail.length 128 = (avail.take 128).length`
bytes. -/
def runTick : Nat → List PollInput → Nat × List Frame
  | seq, [] => (seq, [])
  | seq, .notReady :: _ => (seq, [])
  | seq, .readErr :: _ => (seq, [])
  | seq, .readOk avail pubOk :: rest =>
    let used := min avail.length 128
    if used = 0 then (seq, [])
    else
      let seq' := (seq + 1) % 65536
      let out := runTick seq' rest
      (out.1, ⟨seq', avail.take 128, pubOk⟩ :: out.2)

/-- The outer loop of `uart_recver` over a sequence of ticker ticks: the
counter is threaded from tick to tick and never reset; the frames of all
ticks are published in order. -/
def runTicks : Nat → List (List PollInput) → Nat × List Frame
  | seq, [] => (seq, [])
  | seq, t :: ts =>
    let out₁ := runTick seq t
    let out₂ := runTicks out₁.1 ts
    (out₂.1, out₁.2 ++ out₂.2)

/-! ## Command server loop (`main`, lines 124–128)

`loop { let _ = server.run().await; }`: every outcome of `server.run()`
(disconnect, transport error, clean close) is discarded and the session is
re-run unconditionally. -/

/-- Possible outcomes of one `server.run().await` call. -/
inductive SessionOutcome
  | disconnect
  | transportErr
  | closed
  deriving DecidableEq, Repr

/-- The two phases of the command-server loop state machine. -/
inductive LoopPhase
  | Running
  | SessionEnded
  deriving DecidableEq, Repr

/-- Loop bookkeeping: how many session-start attempts have been made, and the
current phase. -/
structure ServerLoopState where
  attempts : Nat
  phase : LoopPhase
  deriving DecidableEq, Repr

/-- On entry to the `loop`, `server.run()` is invoked: attempt 1, Running. -/
def serverLoopInit : ServerLoopState := ⟨1, .Running⟩

/-- One iteration: the session ends with outcome `o`, which
`let _ = server.run().await` discards; the loop body ends and the next
iteration re-invokes `server.run()`. -/
def serverLoopStep (st : ServerLoopState) (_o : SessionOutcome) : ServerLoopState :=
  ⟨st.attempts + 1, .Running⟩

/-- The loop after a list of completed session outcomes. -/
def serverLoopRun (os : List SessionOutcome) : ServerLoopState :=
  os.foldl serverLoopStep serverLoopInit

/-! ## Guard-instrumented ingest loop

The same inner loop of `uart_recver`, instrumented with the observable
events of one tick: the `serial.lock().await` acquisition, the
`read_ready()` check, the read, the publish, and the drop of the
`MutexGuard` (which in the source happens at the end of each inner-loop
iteration — the guard binding's scope — on every path). -/
inductive Ev
  | acquire
  | checkReady (ready : Bool)
  | readBytes (n : Nat)
  | readFailed
  | publish (seq : Nat) (data : List Nat) (ok : Bool)
  | release
  deriving DecidableEq, Repr

/-- Event trace of one tick of `uart_recver`'s inner loop: each iteration
acquires the guard, checks readiness, possibly reads and publishes, and
releases the guard when the iteration's scope ends (both on the
`continue 'outer` paths and on the fall-through to the next iteration). -/
def runTickEv : Nat → List PollInput → Nat × List Ev
  | s, [] => (s, [])
  | s, .notReady :: _ => (s, [.acquire, .checkReady false, .release])
  | s, .readErr :: _ => (s, [.acquire, .checkReady true, .readFailed, .release])
  | s, .readOk avail pubOk :: rest =>
    let used := min avail.length 128
    if used = 0 then (s, [.acquire, .checkReady true, .readBytes 0, .release])
    else
      let s' := (s + 1) % 65536
      let out := runTickEv s' rest
      (out.1, .acquire :: .checkReady true :: .readBytes used ::
        .publish s' (avail.take 128) pubOk :: .release :: out.2)

/-- Trace suffix strictly after the first publish event, if any. -/
def dropThroughFirstPublish : List Ev → Option (List Ev)
  | [] => none
  | .publish _ _ _ :: evs => some evs
  | _ :: evs => dropThroughFirstPublish evs

/-- In a trace suffix: does a `checkReady` occur before any `release`?
`true` when no further check occurs at all. -/
def checkBeforeRelease : List Ev → Bool
  | [] => true
  | .release :: _ => false
  | .checkReady _ :: _ => true
  | _ :: evs => checkBeforeRelease evs

/-- The literal reading of the drain-burst sentence: after the first
publish, the next read-ready check (if any) happens before any release of
the guard — i.e. the task is still holding the serial guard at its next
read attempt. -/
def stillHoldingAtNextAttempt (evs : List Ev) : Bool :=
  match dropThroughFirstPublish evs with
  | none => true
  | some evs => checkBeforeRelease evs

/-- Whether `read_ready()` reports `Ok(true)` for a given poll input. -/
def readyOf : PollInput → Bool
  | .notReady => false
  | .readErr => true
  | .readOk _ _ => true

/-! ## Identity rendering (`main`, lines 54–73)

The serial string is built in a `[b' '; 16]` buffer; `unique_id.to_be_bytes()`
is zipped with `chunks_exact_mut(2)` and each byte is rendered as two hex
characters via `match b >> 4 { 0..10 => b'0'+v, 10..16 => b'A'+(v-10), _ => b'X' }`
with `b <<= 4` between the two characters. -/

/-- The nibble-to-ASCII match arm, including the unreachable `b'X'` fallback. -/
def hexNibble (v : Nat) : Nat :=
  if v < 10 then 48 + v
  else if v < 16 then 65 + (v - 10)
  else 88

/-- The two characters written for one byte `b` (a `u8`, so reduced mod 256):
first `hexNibble (b >> 4)`, then after `b <<= 4` (a `u8` shift, i.e.
`b * 16 % 256`), `hexNibble` of the new top nibble. -/
def hexByteChars (b : Nat) : List Nat :=
  let b₀ := b % 256
  let c₁ := hexNibble (b₀ / 16)
  let b₁ := b₀ * 16 % 256
  let c₂ := hexNibble (b₁ / 16)
  [c₁, c₂]

/-- `u64::to_be_bytes`: the eight big-endian bytes of `x`. -/
def u64ToBeBytes (x : Nat) : List Nat :=
  [x / 72057594037927936 % 256, x / 281474976710656 % 256,
   x / 1099511627776 % 256, x / 4294967296 % 256,
   x / 16777216 % 256, x / 65536 % 256, x / 256 % 256, x % 256]

/-- `bytes.iter().zip(buf.chunks_exact_mut(2))`: each byte overwrites the
next two buffer slots; iteration stops when either the bytes or the
two-slot chunks run out, leaving the rest of the buffer unchanged. -/
def overwritePairs : List Nat → List Nat → List Nat
  | buf, [] => buf
  | _ :: _ :: buf, b :: bs => hexByteChars b ++ overwritePairs buf bs
  | buf, _ :: _ => buf

/-- The 16-character serial string (as ASCII byte values) rendered from an
8-byte identity, starting from the space-filled buffer `[b' '; 16]`. -/
def renderSerial (x : Nat) : List Nat :=
  overwritePairs (List.replicate 16 32) (u64ToBeBytes x)

/-- Modelled from the spec: the byte-pair-wise hex decoder referenced by the
round-trip property ("decoding that string byte-pair-wise reconstructs the
same integer"); the firmware itself contains no decoder.  Accepts `'0'..'9'`
and `'A'..'F'`. -/
def hexCharVal (c : Nat) : Nat :=
  if 48 ≤ c ∧ c ≤ 57 then c - 48
  else if 65 ≤ c ∧ c ≤ 70 then c - 55
  else 0

/-- Left fold of `hexCharVal` over a character list with accumulator. -/
def decodeHexAux : Nat → List Nat → Nat
  | acc, [] => acc
  | acc, c :: cs => decodeHexAux (acc * 16 + hexCharVal c) cs

/-- Modelled from the spec: decode a hex string (ASCII byte values) to the
integer it denotes, most significant character first. -/
def decodeHex (cs : List Nat) : Nat := decodeHexAux 0 cs

/-! ## Bootstrap identity read (`get_unique_id`, `main` line 53) -/

/-- `u64::from_be_bytes` over an 8-byte buffer. -/
def u64FromBeBytes (bs : List Nat) : Nat :=
  bs.foldl (fun acc b => acc * 256 + b % 256) 0

/-- `unique_id::get_unique_id`: `flash.blocking_unique_id(&mut id).ok()?`
propagates a flash read failure as `None`; on success the 8 bytes are
decoded big-endian. -/
def get_unique_id (flashRead : Except Unit (List Nat)) : Option Nat :=
  match flashRead with
  | .error _ => none
  | .ok id => some (u64FromBeBytes id)

/-- Result of `main`'s `get_unique_id(&mut p.FLASH).unwrap()`: a `None`
panics (halting the process), a `Some` proceeds with the value. -/
inductive BootstrapOutcome
  | halted
  | proceeds (uniqueId : Nat)
  deriving DecidableEq, Repr

/-- The bootstrap step at `main` line 53. -/
def bootstrapIdentity (flashRead : Except Unit (List Nat)) : BootstrapOutcome :=
  match get_unique_id flashRead with
  | none => .halted
  | some v => .proceeds v

/-! ## Heartbeat task (`logging_task`)

`Ticker::every(Duration::from_secs(3))` fires at `start + 3·(k+1)` seconds
for `k = 0, 1, …` (`start` being the task's `Instant::now()`); each tick
publishes `start.elapsed()` via `sender_fmt!`, discarding the publish
result (`let _ = … .await`). -/

/-- The instant (in seconds) of the `k`-th ticker expiry. -/
def tickerTime (start k : Nat) : Nat := start + 3 * (k + 1)

/-- The elapsed durations (seconds) carried by the heartbeat messages over
the first `pubs.length` ticks, where `pubs` gives each tick's publish
outcome — which the task discards, so it does not influence the messages. -/
def logging_task_msgs (start : Nat) (pubs : List Bool) : List Nat :=
  (List.range pubs.length).map (fun k => tickerTime start k - start)

end UartBridge

namespace UartBridge

/-! ## Sequence-counter lemmas for `runTick` / `runTicks` -/

/-- Successive frames carry successor tags mod 2^16. -/
def SeqStep (a b : Frame) : Prop := b.seq = (a.seq + 1) % 65536

instance : DecidableRel SeqStep := fun a b => by unfold SeqStep; infer_instance

/-- Everything the induction needs about the frames of one run, relative to
the starting counter `s`. -/
structure SeqSpec (s : Nat) (out : Nat × List Frame) : Prop where
  chain : List.Chain' SeqStep out.2
  head : ∀ f ∈ out.2.head?, f.seq = (s + 1) % 65536
  last : ∀ f ∈ out.2.getLast?, f.seq = out.1
  nil : out.2 = [] → out.1 = s

theorem runTick_seqSpec : ∀ (inputs : List PollInput) (s : Nat),
    SeqSpec s (runTick s inputs) := by
  intro inputs
  induction inputs with
  | nil => intro s; exact ⟨by simp [runTick], by simp [runTick], by simp [runTick],
      by simp [runTick]⟩
  | cons i rest ih =>
    intro s
    cases i with
    | notReady => exact ⟨by simp [runTick], by simp [runTick], by simp [runTick],
        by simp [runTick]⟩
    | readErr => exact ⟨by simp [runTick], by simp [runTick], by simp [runTick],
        by simp [runTick]⟩
    | readOk avail pubOk =>
      by_cases hz : min avail.length 128 = 0
      · refine ⟨?_, ?_, ?_, ?_⟩ <;> simp [runTick, hz]
      · have hrec := ih ((s + 1) % 65536)
        have hunf : runTick s (.readOk avail pubOk :: rest) =
            ((runTick ((s + 1) % 65536) rest).1,
              ⟨(s + 1) % 65536, avail.take 128, pubOk⟩ ::
                (runTick ((s + 1) % 65536) rest).2) := by
          simp [runTick, hz]
        rw [hunf]
        refine ⟨?_, ?_, ?_, ?_⟩
        · refine List.chain'_cons'.mpr ⟨?_, hrec.chain⟩
          intro b hb
          have := hrec.head b hb
          simp [SeqStep, this]
        · simp
        · intro f hf
          rcases hrest : (runTick ((s + 1) % 65536) rest).2 with _ | ⟨g, gs⟩
          · rw [hrest] at hf
            simp only [List.getLast?_singleton, Option.mem_some_iff] at hf
            subst hf
            exact (hrec.nil hrest).symm
          · apply hrec.last
            rw [hrest, List.getLast?_cons_cons] at hf
            rw [hrest]
            exact hf
        · simp

theorem runTicks_seqSpec : ∀ (ticks : List (List PollInput)) (s : Nat),
    SeqSpec s (runTicks s ticks) := by
  intro ticks
  induction ticks with
  | nil => intro s; exact ⟨by simp [runTicks], by simp [runTicks], by simp [runTicks],
      by simp [runTicks]⟩
  | cons t ts ih =>
    intro s
    have h₁ := runTick_seqSpec t s
    have h₂ := ih (runTick s t).1
    have hunf : runTicks s (t :: ts) =
        ((runTicks (runTick s t).1 ts).1,
          (runTick s t).2 ++ (runTicks (runTick s t).1 ts).2) := by
      simp [runTicks]
    rw [hunf]
    refine ⟨?_, ?_, ?_, ?_⟩
    · refine List.chain'_append.mpr ⟨h₁.chain, h₂.chain, ?_⟩
      intro x hx y hy
      have hxs := h₁.last x hx
      have hys := h₂.head y hy
      simp only [SeqStep, hxs, hys]
    · intro f hf
      rcases h1 : (runTick s t).2 with _ | ⟨g, gs⟩
      · rw [h1, List.nil_append] at hf
        rw [h₂.head f hf, h₁.nil h1]
      · apply h₁.head
        rw [h1, List.cons_append, List.head?_cons] at hf
        rw [h1, List.head?_cons]
        exact hf
    · intro f hf
      rcases h2 : (runTicks (runTick s t).1 ts).2 with _ | ⟨g, gs⟩
      · rw [h2, List.append_nil] at hf
        rw [h₁.last f hf, h₂.nil h2]
      · apply h₂.last
        rw [h2, List.getLast?_append_of_ne_nil _ (by simp)] at hf
        rw [h2]
        exact hf
    · intro h
      rcases List.append_eq_nil.mp h with ⟨h1, h2⟩
      rw [h₂.nil h2, h₁.nil h1]

/-! ## Payload-size lemmas -/

theorem runTick_data_bounds : ∀ (inputs : List PollInput) (s : Nat),
    ∀ f ∈ (runTick s inputs).2, 1 ≤ f.data.length ∧ f.data.length ≤ 128 := by
  intro inputs
  induction inputs with
  | nil => intro s f hf; simp [runTick] at hf
  | cons i rest ih =>
    intro s f hf
    cases i with
    | notReady => simp [runTick] at hf
    | readErr => simp [runTick] at hf
    | readOk avail pubOk =>
      by_cases hz : min avail.length 128 = 0
      · simp [runTick, hz] at hf
      · simp only [runTick, hz, if_false, List.mem_cons] at hf
        rcases hf with hf | hf
        · subst hf
          simp only [List.length_take]
          omega
        · exact ih _ f hf

theorem runTicks_data_bounds : ∀ (ticks : List (List PollInput)) (s : Nat),
    ∀ f ∈ (runTicks s ticks).2, 1 ≤ f.data.length ∧ f.data.length ≤ 128 := by
  intro ticks
  induction ticks with
  | nil => intro s f hf; simp [runTicks] at hf
  | cons t ts ih =>
    intro s f hf
    simp only [runTicks, List.mem_append] at hf
    rcases hf with hf | hf
    · exact runTick_data_bounds t s f hf
    · exact ih _ f hf

/-! ## Command-server loop lemma -/

theorem serverLoop_foldl (os : List SessionOutcome) : ∀ st : ServerLoopState,
    st.phase = .Running →
    os.foldl serverLoopStep st = ⟨st.attempts + os.length, .Running⟩ := by
  induction os with
  | nil => intro st h; cases st; simp_all
  | cons o os ih =>
    intro st h
    rw [List.foldl_cons, ih _ rfl]
    simp [serverLoopStep]
    omega

/-! ## Hex-rendering lemmas -/

theorem hexCharVal_hexNibble (v : Nat) (h : v < 16) :
    hexCharVal (hexNibble v) = v := by
  unfold hexNibble hexCharVal
  split_ifs <;> omega

theorem hexByteChars_mem_range (b c : Nat) (hc : c ∈ hexByteChars b) :
    (48 ≤ c ∧ c ≤ 57) ∨ (65 ≤ c ∧ c ≤ 70) := by
  simp only [hexByteChars, List.mem_cons, List.not_mem_nil, or_false] at hc
  have h₁ : b % 256 / 16 < 16 := by omega
  have h₂ : b % 256 * 16 % 256 / 16 < 16 := by omega
  rcases hc with hc | hc <;> subst hc <;> unfold hexNibble <;> split_ifs <;> omega

theorem hexByteChars_decode (b acc : Nat) (rest : List Nat) :
    decodeHexAux acc (hexByteChars b ++ rest) =
      decodeHexAux (acc * 256 + b % 256) rest := by
  simp only [hexByteChars, List.cons_append, List.nil_append, decodeHexAux]
  rw [hexCharVal_hexNibble _ (by omega), hexCharVal_hexNibble _ (by omega)]
  have h : (acc * 16 + b % 256 / 16) * 16 + b % 256 * 16 % 256 / 16 =
      acc * 256 + b % 256 := by omega
  rw [h]
  rfl

theorem renderSerial_expand (x : Nat) :
    renderSerial x =
      hexByteChars (x / 72057594037927936 % 256) ++
      (hexByteChars (x / 281474976710656 % 256) ++
      (hexByteChars (x / 1099511627776 % 256) ++
      (hexByteChars (x / 4294967296 % 256) ++
      (hexByteChars (x / 16777216 % 256) ++
      (hexByteChars (x / 65536 % 256) ++
      (hexByteChars (x / 256 % 256) ++
      (hexByteChars (x % 256) ++ []))))))) := rfl

theorem renderSerial_length (x : Nat) : (renderSerial x).length = 16 := by
  rw [renderSerial_expand]
  simp [hexByteChars]

theorem renderSerial_mem_hex (x c : Nat) (hc : c ∈ renderSerial x) :
    (48 ≤ c ∧ c ≤ 57) ∨ (65 ≤ c ∧ c ≤ 70) := by
  rw [renderSerial_expand] at hc
  simp only [List.mem_append, List.not_mem_nil, or_false] at hc
  rcases hc with hc | hc | hc | hc | hc | hc | hc | hc <;>
    exact hexByteChars_mem_range _ _ hc

end UartBridge

namespace UartBridge

/-! ## Claim theorems -/

/-- C1: over any sequence of ticks of the `uart_recver` task — including
ticks with not-ready, error, and zero-length reads, and publishes that fail
because no host is connected — successive published frames carry successor
sequence tags mod 65536 (no gaps, no duplicates); the first published frame
is tagged 1 (counter starts at 0); and the increment wraps 65535 to 0
(totally, hence without panicking). -/
theorem uart_seq_tags_strictly_increase (ticks : List (List PollInput)) :
    List.Chain' SeqStep (runTicks 0 ticks).2 ∧
    (∀ f ∈ (runTicks 0 ticks).2.head?, f.seq = 1) ∧
    (runTick 65535 [.readOk [1] true]).2.head? = some ⟨0, [1], true⟩ := by
  refine ⟨(runTicks_seqSpec ticks 0).chain, ?_, by decide⟩
  intro f hf
  exact (runTicks_seqSpec ticks 0).head f hf

theorem uart_seq_tags_strictly_increase_witness :
    (⟨1, [65], true⟩ : Frame).seq = 1 :=
  (uart_seq_tags_strictly_increase [[.readOk [65] true]]).2.1
    ⟨1, [65], true⟩ (by decide)

/-- C2: a poll attempt that is not ready, or whose read errors, or whose
read returns zero bytes publishes nothing and ends the tick (deferring to
the next ticker tick); every published frame comes from a read of `N > 0`
bytes. -/
theorem uart_no_publish_on_empty_attempt :
    (∀ (s : Nat) (rest : List PollInput), runTick s (.notReady :: rest) = (s, [])) ∧
    (∀ (s : Nat) (rest : List PollInput), runTick s (.readErr :: rest) = (s, [])) ∧
    (∀ (s : Nat) (rest : List PollInput) (pubOk : Bool),
      runTick s (.readOk [] pubOk :: rest) = (s, [])) ∧
    (∀ (s : Nat) (inputs : List PollInput), ∀ f ∈ (runTick s inputs).2,
      1 ≤ f.data.length) := by
  refine ⟨fun s rest => by simp [runTick], fun s rest => by simp [runTick],
    fun s rest pubOk => by simp [runTick], ?_⟩
  intro s inputs f hf
  exact (runTick_data_bounds inputs s f hf).1

theorem uart_no_publish_on_empty_attempt_witness :
    1 ≤ (Frame.mk 1 [65] true).data.length :=
  uart_no_publish_on_empty_attempt.2.2.2 0 [.readOk [65] true]
    ⟨1, [65], true⟩ (by decide)

/-- C3: the command-server loop discards every session outcome (disconnect,
transport error, clean close) and unconditionally re-invokes `server.run()`:
after any list of `N` completed session outcomes it has made exactly `N + 1`
session-start attempts and is back in the Running phase — there is no
terminal state. -/
theorem server_loop_restarts_forever (os : List SessionOutcome) :
    (serverLoopRun os).attempts = os.length + 1 ∧
    (serverLoopRun os).phase = .Running := by
  have h := serverLoop_foldl os serverLoopInit rfl
  rw [serverLoopRun, h]
  exact ⟨Nat.add_comm 1 os.length, rfl⟩

/-- C6: the two-tick scenario — bytes `[0x41, 0x42]` then `[0x43]` on
successive ticks from a fresh task — publishes exactly (seq 1, `"AB"`)
then (seq 2, `"C"`); in general every published frame holds exactly the
bytes read in its attempt (the first `min N 128` offered bytes, here stated
via `head?`), with `1 ≤ N ≤ 128` bounded by the 128-byte read buffer. -/
theorem uart_scenario_and_payload_bounds :
    ((runTicks 0 [[.readOk [65, 66] true, .notReady],
        [.readOk [67] true, .notReady]]).2.map (fun f => (f.seq, f.data)) =
      [(1, [65, 66]), (2, [67])]) ∧
    (∀ (s : Nat) (ticks : List (List PollInput)), ∀ f ∈ (runTicks s ticks).2,
      1 ≤ f.data.length ∧ f.data.length ≤ 128) ∧
    (∀ (s : Nat) (avail : List Nat) (pubOk : Bool) (rest : List PollInput),
      avail ≠ [] →
      (runTick s (.readOk avail pubOk :: rest)).2.head? =
        some ⟨(s + 1) % 65536, avail.take 128, pubOk⟩) := by
  refine ⟨by decide, fun s ticks => runTicks_data_bounds ticks s, ?_⟩
  intro s avail pubOk rest h
  have hz : ¬ min avail.length 128 = 0 := by
    have : avail.length ≠ 0 := fun hl => h (List.length_eq_zero.mp hl)
    omega
  simp [runTick, hz]

theorem uart_scenario_and_payload_bounds_witness :
    1 ≤ (Frame.mk 1 [65] true).data.length ∧
    (runTick 0 [.readOk [66] false]).2.head? = some ⟨1, [66], false⟩ :=
  ⟨(uart_scenario_and_payload_bounds.2.1 0 [[.readOk [65] true]]
      ⟨1, [65], true⟩ (by decide)).1,
    by
      have := uart_scenario_and_payload_bounds.2.2 0 [66] false [] (by decide)
      simpa using this⟩

/-- C7: a failed publish (`pubOk = false`) is invisible to the rest of the
loop: the final counter and the (seq, data) stream are the same as in the
success case, the frame for the failed publish is simply not delivered, and
processing of the remaining inputs continues unchanged — the loop never
propagates the error and never halts. -/
theorem uart_publish_failure_harmless (s : Nat) (avail : List Nat)
    (rest : List PollInput) (h : avail ≠ []) :
    (runTick s (.readOk avail false :: rest)).1 =
      (runTick s (.readOk avail true :: rest)).1 ∧
    (runTick s (.readOk avail false :: rest)).2.map (fun f => (f.seq, f.data)) =
      (runTick s (.readOk avail true :: rest)).2.map (fun f => (f.seq, f.data)) ∧
    (∀ f ∈ (runTick s (.readOk avail false :: rest)).2.head?, f.delivered = false) ∧
    (runTick s (.readOk avail false :: rest)).2.tail =
      (runTick ((s + 1) % 65536) rest).2 := by
  have hz : ¬ min avail.length 128 = 0 := by
    have : avail.length ≠ 0 := fun hl => h (List.length_eq_zero.mp hl)
    omega
  refine ⟨by simp [runTick, hz], by simp [runTick, hz], ?_, by simp [runTick, hz]⟩
  intro f hf
  simp only [runTick, hz, if_false, List.head?_cons, Option.mem_some_iff] at hf
  subst hf
  rfl

theorem uart_publish_failure_harmless_witness :
    ([65] : List Nat) ≠ [] ∧
    (runTick 0 [.readOk [65] false]).2.tail = (runTick 1 []).2 :=
  ⟨by decide, (uart_publish_failure_harmless 0 [65] [] (by decide)).2.2.2⟩

/-- C4: for every 8-byte identity value, the rendering is a fixed-width
16-character string of uppercase hex characters (`'0'..'9'`, `'A'..'F'`,
leading zeros included), and byte-pair-wise decoding reconstructs the
original integer exactly. -/
theorem serial_hex_roundtrip (x : Nat) (h : x < 18446744073709551616) :
    decodeHex (renderSerial x) = x ∧
    (renderSerial x).length = 16 ∧
    (∀ c ∈ renderSerial x, (48 ≤ c ∧ c ≤ 57) ∨ (65 ≤ c ∧ c ≤ 70)) := by
  refine ⟨?_, renderSerial_length x, fun c hc => renderSerial_mem_hex x c hc⟩
  rw [decodeHex, renderSerial_expand]
  simp only [hexByteChars_decode]
  simp only [decodeHexAux]
  have h0 : 0 * 256 + x / 72057594037927936 % 256 % 256 = x / 72057594037927936 := by
    omega
  rw [h0]
  have h1 : x / 72057594037927936 * 256 + x / 281474976710656 % 256 % 256 =
      x / 281474976710656 := by omega
  rw [h1]
  have h2 : x / 281474976710656 * 256 + x / 1099511627776 % 256 % 256 =
      x / 1099511627776 := by omega
  rw [h2]
  have h3 : x / 1099511627776 * 256 + x / 4294967296 % 256 % 256 =
      x / 4294967296 := by omega
  rw [h3]
  have h4 : x / 4294967296 * 256 + x / 16777216 % 256 % 256 = x / 16777216 := by
    omega
  rw [h4]
  have h5 : x / 16777216 * 256 + x / 65536 % 256 % 256 = x / 65536 := by omega
  rw [h5]
  have h6 : x / 65536 * 256 + x / 256 % 256 % 256 = x / 256 := by omega
  rw [h6]
  omega

theorem serial_hex_roundtrip_witness :
    decodeHex (renderSerial 45514025410622983) = 45514025410622983 ∧
    renderSerial 45514025410622983 =
      [48, 48, 65, 49, 66, 50, 67, 51, 68, 52, 69, 53, 70, 54, 48, 55] :=
  ⟨(serial_hex_roundtrip 45514025410622983 (by norm_num)).1, by decide⟩

/-- C10: the rendering loop writes all 16 buffer bytes and each written
byte is an uppercase hex digit: the `b'X'` fallback arm never fires (a
`u8` nibble is below 16), no byte keeps the `b' '` filler, and every byte
is ASCII (< 128), so `core::str::from_utf8(..).unwrap()` cannot panic. -/
theorem serial_hex_no_fallback (x : Nat) :
    (renderSerial x).length = 16 ∧
    ∀ c ∈ renderSerial x,
      ((48 ≤ c ∧ c ≤ 57) ∨ (65 ≤ c ∧ c ≤ 70)) ∧ c ≠ 88 ∧ c ≠ 32 ∧ c < 128 := by
  refine ⟨renderSerial_length x, ?_⟩
  intro c hc
  have h := renderSerial_mem_hex x c hc
  exact ⟨h, by omega, by omega, by omega⟩

theorem serial_hex_no_fallback_witness :
    ((48 ≤ 48 ∧ 48 ≤ 57) ∨ (65 ≤ 48 ∧ 48 ≤ 70)) ∧ 48 ≠ 88 ∧ 48 ≠ 32 ∧ 48 < 128 :=
  (serial_hex_no_fallback 0).2 48 (by decide)

/-- C5 (counterexample): the drain burst does not happen "while still
holding the serial guard": in the source the `MutexGuard` binding is
dropped at the end of each inner-loop iteration, so the concrete one-tick
run that reads + publishes `[0x41]` and then re-polls shows a `release`
between the publish and the next read-ready check, and the literal
still-holding predicate evaluates to `false` on its trace. -/
theorem uart_drain_burst_guard_not_held :
    (runTickEv 0 [.readOk [65] true, .notReady]).2 =
      [.acquire, .checkReady true, .readBytes 1, .publish 1 [65] true,
        .release, .acquire, .checkReady false, .release] ∧
    stillHoldingAtNextAttempt (runTickEv 0 [.readOk [65] true, .notReady]).2 = false := by
  constructor <;> decide

/-- C5 (amended): after a successful read of `N > 0` bytes and the
corresponding publish, the task releases the guard at the end of the
iteration and immediately continues the inner loop within the same tick —
re-acquiring the guard and performing another read-ready check with no
intervening ticker wait — deferring to the next tick only once an attempt
is not ready, errors, or reads zero bytes. -/
theorem uart_drain_burst_same_tick (s : Nat) (avail : List Nat) (pubOk : Bool)
    (rest : List PollInput) (h : avail ≠ []) :
    (runTickEv s (.readOk avail pubOk :: rest)).2 =
      .acquire :: .checkReady true :: .readBytes (min avail.length 128) ::
      .publish ((s + 1) % 65536) (avail.take 128) pubOk :: .release ::
      (runTickEv ((s + 1) % 65536) rest).2 ∧
    (∀ (i : PollInput) (r' : List PollInput), rest = i :: r' →
      ∃ tl, (runTickEv ((s + 1) % 65536) rest).2 =
        .acquire :: .checkReady (readyOf i) :: tl) := by
  have hz : ¬ min avail.length 128 = 0 := by
    have : avail.length ≠ 0 := fun hl => h (List.length_eq_zero.mp hl)
    omega
  constructor
  · simp [runTickEv, hz]
  · rintro i r' rfl
    cases i with
    | notReady => exact ⟨[.release], by simp [runTickEv, readyOf]⟩
    | readErr => exact ⟨[.readFailed, .release], by simp [runTickEv, readyOf]⟩
    | readOk avail' pubOk' =>
      by_cases hz' : min avail'.length 128 = 0
      · exact ⟨[.readBytes 0, .release], by simp [runTickEv, readyOf, hz']⟩
      · exact ⟨.readBytes (min avail'.length 128) ::
          .publish (((s + 1) % 65536 + 1) % 65536) (avail'.take 128) pubOk' ::
          .release :: (runTickEv (((s + 1) % 65536 + 1) % 65536) r').2,
          by simp [runTickEv, readyOf, hz']⟩

theorem uart_drain_burst_same_tick_witness :
    (runTickEv 0 [PollInput.readOk [65] true]).2 =
      [.acquire, .checkReady true, .readBytes 1, .publish 1 [65] true, .release] := by
  rw [(uart_drain_burst_same_tick 0 [65] true [] (by decide)).1]
  decide

/-- C8: a failed one-shot identity read at bootstrap is fatal — the
`unwrap()` halts the process and no fallback identity is substituted —
while a successful read proceeds with the big-endian value of the 8 bytes
read. -/
theorem bootstrap_identity_fatal_on_absence :
    (bootstrapIdentity (.error ()) = .halted) ∧
    (∀ v : Nat, bootstrapIdentity (.error ()) ≠ .proceeds v) ∧
    (∀ bs : List Nat, bootstrapIdentity (.ok bs) = .proceeds (u64FromBeBytes bs)) := by
  refine ⟨rfl, ?_, fun bs => rfl⟩
  intro v h
  simp [bootstrapIdentity, get_unique_id] at h

theorem bootstrap_identity_fatal_on_absence_witness :
    bootstrapIdentity (.error ()) = .halted ∧
    bootstrapIdentity (.ok [1, 2, 3, 4, 5, 6, 7, 8]) =
      .proceeds (u64FromBeBytes [1, 2, 3, 4, 5, 6, 7, 8]) :=
  ⟨bootstrap_identity_fatal_on_absence.1,
    bootstrap_identity_fatal_on_absence.2.2 [1, 2, 3, 4, 5, 6, 7, 8]⟩

/-- C9: the heartbeat task emits one liveness message per 3-second ticker
tick, carrying the elapsed duration since the task recorded its start
instant; successive elapsed values are non-decreasing; and the messages do
not depend on the per-tick publish outcomes (host connected or not) — in
particular three ticks with no host attached still produce the three
messages with elapsed 3 s, 6 s, 9 s. -/
theorem heartbeat_cadence_and_monotone (start : Nat) (pubs : List Bool) :
    (logging_task_msgs start pubs).length = pubs.length ∧
    List.Chain' (· ≤ ·) (logging_task_msgs start pubs) ∧
    (∀ pubs' : List Bool, pubs'.length = pubs.length →
      logging_task_msgs start pubs' = logging_task_msgs start pubs) ∧
    logging_task_msgs 0 [false, false, false] = [3, 6, 9] := by
  have hmsgs : ∀ st (ps : List Bool), logging_task_msgs st ps =
      (List.range ps.length).map (fun k => 3 * (k + 1)) := by
    intro st ps
    simp [logging_task_msgs, tickerTime]
  refine ⟨?_, ?_, ?_, by decide⟩
  · simp [logging_task_msgs]
  · rw [hmsgs]
    refine List.Pairwise.chain' ?_
    refine List.Pairwise.map _ ?_ (List.pairwise_lt_range _)
    intro a b hab
    omega
  · intro pubs' hlen
    rw [hmsgs, hmsgs, hlen]

theorem heartbeat_cadence_and_monotone_witness :
    logging_task_msgs 5 [false, true] = logging_task_msgs 5 [true, false] :=
  (heartbeat_cadence_and_monotone 5 [true, false]).2.2.1 [false, true] (by decide)

end UartBridge
